import Mathlib

/-!
Verification of the image-extraction / ordering / download pipeline of
`image_to_pdf_downloader.py`.

The Python program is shallowly embedded: each Python function that the
claims mention is translated into an executable Lean definition operating
on `String` / `List Char`.  External collaborators (the HTML parser, the
HTTP session, the thread pool) are modelled as explicit parameters: a
parsed page is a record of the attribute lists the code queries, the
network is a function from URL to an optional fetch result, and the thread
pool's nondeterministic completion order is an arbitrary permutation of
the submitted task list.
-/

namespace ImagePdf

/-- Python `str.strip()` (whitespace trimming at both ends). -/
def pyStrip (s : String) : String :=
  ⟨((s.data.dropWhile Char.isWhitespace).reverse.dropWhile Char.isWhitespace).reverse⟩

/-- Lower-case a character list, modelling Python `str.lower()`. -/
def lowerL (l : List Char) : List Char := l.map Char.toLower

/-- `stripLit pat l` removes the literal `pat` from the front of `l`
(`some rest` on success).  Used to model literal parts of regexes and
`str.startswith`-style checks. -/
def stripLit : List Char → List Char → Option (List Char)
  | [], l => some l
  | _ :: _, [] => none
  | p :: ps, c :: cs => if p = c then stripLit ps cs else none

/-- `occursLit pat l` is Python's substring test `pat in l`. -/
def occursLit (pat : List Char) : List Char → Bool
  | [] => (stripLit pat []).isSome
  | c :: cs => (stripLit pat (c :: cs)).isSome || occursLit pat cs

/-- `is_image_url` from the source: the lower-cased full URL must end with
one of the six image extensions. -/
def is_image_url (url : String) : Bool :=
  [".jpg", ".jpeg", ".png", ".gif", ".webp", ".bmp"].any
    (fun ext => ext.data.isSuffixOf (lowerL url.data))

/-- One attempted match of the regex `/styles/[^/]+/public/` at the head of
the list: the literal `/styles/`, a nonempty run of non-`/` characters,
then the literal `/public/`.  Returns the remainder after the match. -/
def styMatch (l : List Char) : Option (List Char) :=
  match stripLit "/styles/".data l with
  | none => none
  | some r1 =>
    let v := r1.takeWhile (fun c => decide (c ≠ '/'))
    if v.isEmpty then none
    else stripLit "/public/".data (r1.drop v.length)

/-- Fuel-driven scan modelling `re.sub(r'/styles/[^/]+/public/', '/', url)`:
left-to-right, non-overlapping, each match replaced by `/`, scanning
resuming after the matched region. -/
def stripStylesF : Nat → List Char → List Char
  | _, [] => []
  | 0, l => l
  | Nat.succ n, c :: cs =>
    match styMatch (c :: cs) with
    | some r => '/' :: stripStylesF n r
    | none => c :: stripStylesF n cs

def stripStyles (l : List Char) : List Char := stripStylesF l.length l

/-- Model of `re.search(r'[?&]itok=([^&]+)', url)`: leftmost `?` or `&`
followed by `itok=` and a nonempty greedy run of non-`&` characters. -/
def findItok : List Char → Option (List Char)
  | [] => none
  | c :: cs =>
    if c = '?' ∨ c = '&' then
      match stripLit "itok=".data cs with
      | some rest =>
        let v := rest.takeWhile (fun x => decide (x ≠ '&'))
        if v.isEmpty then findItok cs else some v
      | none => findItok cs
    else findItok cs

/-- `clean_image_url` from the source: one substitution pass collapsing
`/styles/<variant>/public/` to `/`, then, if a `?` is present, the part
before the first `?` plus `?itok=<v>` when the itok regex matches the
(substituted) URL, else just that prefix. -/
def clean_image_url (url : String) : String :=
  let l := stripStyles url.data
  if l.any (fun c => decide (c = '?')) then
    let base := l.takeWhile (fun c => decide (c ≠ '?'))
    match findItok l with
    | some v => ⟨base ++ "?itok=".data ++ v⟩
    | none => ⟨base⟩
  else ⟨l⟩

example : clean_image_url "https://x.test/img.jpg?itok=ABC123&w=200"
    = "https://x.test/img.jpg?itok=ABC123" := by decide
example : clean_image_url "https://x.test/styles/thumbnail/public/photo.png?w=50"
    = "https://x.test/photo.png" := by decide
example : clean_image_url "https://x.test/styles/X/public/styles/a/public/b.jpg"
    = "https://x.test/styles/a/public/b.jpg" := by decide
example : clean_image_url "https://x.test/a&itok=B.jpg?w=1"
    = "https://x.test/a&itok=B.jpg?itok=B.jpg?w=1" := by decide
example : is_image_url "photo.jpg?itok=ABC" = false := by decide
example : is_image_url "PHOTO.JPG" = true := by decide

/-- Suffix of a character list after its last `/`, i.e. `url.split('/')[-1]`. -/
def afterLastSlash (l : List Char) : List Char :=
  (l.reverse.takeWhile (fun c => decide (c ≠ '/'))).reverse

/-- The filename the sort key is taken from:
`url.split('/')[-1].split('?')[0]`. -/
def pyFilename (url : String) : List Char :=
  (afterLastSlash url.data).takeWhile (fun c => decide (c ≠ '?'))

/-- Python `int` on a (nonempty) digit string. -/
def digitsToNat (l : List Char) : Nat :=
  l.foldl (fun n c => n * 10 + (c.toNat - '0'.toNat)) 0

/-- Pattern 1 of `extract_number_from_filename`:
`re.search(r'^(\d+)[\W_]', filename)` — a leading digit run followed by a
character outside `[A-Za-z0-9]` (the class `[\W_]`). -/
def numPat1 (l : List Char) : Option Nat :=
  let d := l.takeWhile Char.isDigit
  if d.isEmpty then none
  else
    match (l.drop d.length).head? with
    | some c => if c.isAlphanum then none else some (digitsToNat d)
    | none => none

/-- Pattern 2: `re.search(r'[\W_](\d+)\.', filename)` — leftmost
non-alphanumeric character followed by a digit run ending right before a
literal `.`. -/
def numPat2 : List Char → Option Nat
  | [] => none
  | c :: cs =>
    if c.isAlphanum then numPat2 cs
    else
      let d := cs.takeWhile Char.isDigit
      if !d.isEmpty && (cs.drop d.length).head? = some '.' then some (digitsToNat d)
      else numPat2 cs

/-- Pattern 3: `re.search(r'(\d+)', filename)` — the leftmost digit run. -/
def numPat3 : List Char → Option Nat
  | [] => none
  | c :: cs =>
    if c.isDigit then some (digitsToNat ((c :: cs).takeWhile Char.isDigit))
    else numPat3 cs

/-- `extract_number_from_filename` from the source; `none` plays the role of
the Python `float('inf')` sentinel returned when no pattern matches. -/
def extract_number_from_filename (url : String) : Option Nat :=
  let f := pyFilename url
  match numPat1 f with
  | some n => some n
  | none =>
    match numPat2 f with
    | some n => some n
    | none => numPat3 f

/-- Order on sort keys: every number is below the `none` (`float('inf')`)
sentinel, numbers compare as naturals. -/
def keyLe : Option Nat → Option Nat → Bool
  | _, none => true
  | none, some _ => false
  | some a, some b => decide (a ≤ b)

/-- Insert into a key-sorted list, before the first element with a
greater-or-equal key (so equal keys keep the incoming-first order). -/
def insertByKey (key : α → Option Nat) (a : α) : List α → List α
  | [] => [a]
  | b :: l => if keyLe (key a) (key b) then a :: b :: l else b :: insertByKey key a l

/-- Stable ascending sort by key.  Python's `list.sort(key=...)` is the
(unique) stable ascending sort, which this insertion sort implements. -/
def sortByKey (key : α → Option Nat) : List α → List α
  | [] => []
  | a :: l => insertByKey key a (sortByKey key l)

/-- `smart_sort_images` from the source: stable ascending sort of the URL
list by the numeric key of each filename. -/
def smart_sort_images (urls : List String) : List String :=
  sortByKey extract_number_from_filename urls

/-- Deduplication loop of `extract_images` (a `seen` set plus an output
list keeping the first occurrence of each URL). -/
def dedupSeen (seen : List String) : List String → List String
  | [] => []
  | u :: rest =>
    if u ∈ seen then dedupSeen seen rest else u :: dedupSeen (u :: seen) rest

/-- The `# Remove duplicates while preserving order` block of
`extract_images`. -/
def removeDuplicates (l : List String) : List String := dedupSeen [] l

example : extract_number_from_filename "a/12_34.jpg" = some 12 := by decide
example : extract_number_from_filename "a/ab12cd_34.jpg" = some 34 := by decide
example : extract_number_from_filename "a/abc12def.jpg" = some 12 := by decide
example : extract_number_from_filename "a/cover.jpg" = none := by decide
example : extract_number_from_filename "x/img_01.jpg" = some 1 := by decide
example : smart_sort_images ["img_01.jpg", "img_03.jpg", "img_02.jpg"]
    = ["img_01.jpg", "img_02.jpg", "img_03.jpg"] := by decide
example : smart_sort_images ["cover.jpg", "img_02.jpg"]
    = ["img_02.jpg", "cover.jpg"] := by decide
example : removeDuplicates ["b", "a", "b", "c", "a"] = ["b", "a", "c"] := by decide

/-- What the crawler observes on one fetched page: the result of
`extract_main_image` (one main image, if any) and of `find_next_page_url`
(the next page URL, if any).  `α` is the page-URL type, `β` the image-URL
type; the program instantiates both at `String`. -/
structure CrawlPage (α β : Type) where
  image : Option β
  next : Option α
  deriving DecidableEq

/-- A fetched-and-parsed HTML document, as the record of exactly the
queries `extract_images` / `is_paginated_gallery` make of the external
HTML-parsing collaborator: the page URL, the raw markup, the `id`
attributes of `div` elements, the `src` values of `<img>` inside
`<noscript>` blocks, the `data-src` values of all `<img>`, the `src`
values of all `<img>`, and what the per-page extractors
(`extract_main_image` / `find_next_page_url`) yield on this page. -/
structure Document where
  url : String
  rawHtml : String
  divIds : List String
  noscriptSrcs : List String
  dataSrcs : List String
  srcs : List String
  pageData : CrawlPage String String

/-- The fixed indicator strings of `is_paginated_gallery`. -/
def paginationIndicators : List String :=
  ["Next Image", "Previous Image", "pagGaleria", "next-page", "prev-page"]

/-- `is_paginated_gallery` from the source: an indicator occurs
(case-insensitively) in the raw HTML, or some `div` id matches the
case-insensitive pattern `control`. -/
def is_paginated_gallery (doc : Document) : Bool :=
  paginationIndicators.any
      (fun ind => occursLit (lowerL ind.data) (lowerL doc.rawHtml.data))
    || doc.divIds.any (fun i => occursLit (lowerL "control".data) (lowerL i.data))

/-- One strategy of `extract_images`: keep each truthy `src` whose stripped
form passes `is_image_url`, appending the stripped form. -/
def candidateList (srcs : List String) : List String :=
  srcs.filterMap (fun s =>
    if s ≠ "" ∧ is_image_url (pyStrip s) then some (pyStrip s) else none)

/-- The static part of `extract_images` (strategies 1–3, then clean,
dedup, smart sort): first non-empty candidate list wins, noscript `src`
before `data-src` before plain `src`. -/
def extract_images_static (doc : Document) : List String :=
  let s1 := candidateList doc.noscriptSrcs
  let s2 := candidateList doc.dataSrcs
  let s3 := candidateList doc.srcs
  let cands := if s1 ≠ [] then s1 else if s2 ≠ [] then s2 else s3
  smart_sort_images (removeDuplicates (cands.map clean_image_url))

/-- The `while` loop of `extract_paginated_images`.  `fuel` is the number
of pages the `page_number <= max_pages` guard still allows; `g` is the
network (`none` = fetch/parse exception, which breaks the loop keeping the
images collected so far); the first page (`current = start`) reuses the
already-fetched `initial` content.  Returns the collected image list and
the number of pages processed (added to the visited set). -/
def crawlLoop [DecidableEq α] (g : α → Option (CrawlPage α β)) (start : α)
    (initial : CrawlPage α β) :
    Nat → List α → α → List β → Nat → List β × Nat
  | 0, _, _, acc, cnt => (acc, cnt)
  | Nat.succ fuel, visited, current, acc, cnt =>
    if current ∈ visited then (acc, cnt)
    else
      match (if current = start then some initial else g current) with
      | none => (acc, cnt + 1)
      | some page =>
        let acc2 := acc ++ page.image.toList
        match page.next with
        | none => (acc2, cnt + 1)
        | some nxt =>
          if nxt ∈ current :: visited then (acc2, cnt + 1)
          else crawlLoop g start initial fuel (current :: visited) nxt acc2 (cnt + 1)

/-- `extract_paginated_images` from the source: crawl from the start URL
with the hard ceiling `max_pages = 200`, an empty visited set and
`page_number = 1`. -/
def extract_paginated_images [DecidableEq α] (g : α → Option (CrawlPage α β))
    (start : α) (initial : CrawlPage α β) : List β × Nat :=
  crawlLoop g start initial 200 [] start [] 0

/-- `extract_images` from the source: delegate to the pagination crawler
when the paginated-gallery detector fires, else run the static strategy
chain. -/
def extract_images (doc : Document) (g : String → Option (CrawlPage String String)) :
    List String :=
  if is_paginated_gallery doc then (extract_paginated_images g doc.url doc.pageData).1
  else extract_images_static doc

/-- Two-page cycle A → B → A, each page with its own image. -/
def cycleGraph : String → Option (CrawlPage String String) := fun u =>
  if u = "B" then some ⟨some "imgB", some "A"⟩ else none

/-- Unbounded chain n → n+1, page n carrying image n. -/
def chainGraph : Nat → Option (CrawlPage Nat Nat) := fun n =>
  some ⟨some n, some (n + 1)⟩

example : extract_paginated_images cycleGraph "A" ⟨some "imgA", some "B"⟩
    = (["imgA", "imgB"], 2) := by decide
set_option maxRecDepth 100000 in
example : (extract_paginated_images chainGraph 0 ⟨some 0, some 1⟩).2 = 200 := by decide
set_option maxRecDepth 100000 in
example : (extract_paginated_images chainGraph 0 ⟨some 0, some 1⟩).1
    = List.range 200 := by decide

/-- The end-to-end scenario document of the spec: HTML holding
`<noscript><img src="full/1.jpg"></noscript>` and `<img data-src="thumb/1.jpg">`. -/
def demoDoc : Document where
  url := "https://site.test/gallery"
  rawHtml := "<html><body><noscript><img src=\"full/1.jpg\"></noscript><img data-src=\"thumb/1.jpg\"></body></html>"
  divIds := []
  noscriptSrcs := ["full/1.jpg"]
  dataSrcs := ["thumb/1.jpg"]
  srcs := ["full/1.jpg"]
  pageData := ⟨none, none⟩

example : is_paginated_gallery demoDoc = false := by decide
example : extract_images_static demoDoc = ["full/1.jpg"] := by decide

/-- Tail parse of the regex the source applies to `current_url` in
strategy 3 of `find_next_page_url`: a lazy `(.*?)`, a separator that is
`-` or `/`, a nonempty digit group, an optional final `/`, end of string.
So: at most one trailing `/` is dropped, the remaining string must end in
a nonempty digit run preceded by `-` or `/`; returns `(group 1, group 2)`,
i.e. the part before the separator and the digit run. -/
def parseTailNum (s : String) : Option (String × List Char) :=
  let l := s.data
  let l2 := if l.getLast? = some '/' then l.dropLast else l
  let d := (l2.reverse.takeWhile Char.isDigit).reverse
  if d.isEmpty then none
  else
    let front := l2.take (l2.length - d.length)
    match front.getLast? with
    | some c => if c = '-' ∨ c = '/' then some (⟨front.dropLast⟩, d) else none
    | none => none

/-- `f"{n:02d}"`. -/
def pad2 (n : Nat) : String := if n < 10 then "0" ++ Nat.repr n else Nat.repr n

/-- Strategy 3 of `find_next_page_url` (the numeric-increment heuristic,
reached when the Next-text and next-class strategies yielded nothing):
split the current URL with `parseTailNum`, increment the digits, zero-pad
to two digits when the current value is below 10, always join with `-`
and append `/`, and return the candidate only if it occurs verbatim in
the page text or in some anchor's markup. -/
def find_next_numeric (pageText : String) (anchorStrs : List String)
    (current : String) : Option String :=
  match parseTailNum current with
  | none => none
  | some (base, d) =>
    let cur := digitsToNat d
    let potential :=
      if cur < 10 then base ++ "-" ++ pad2 (cur + 1) ++ "/"
      else base ++ "-" ++ Nat.repr (cur + 1) ++ "/"
    if occursLit potential.data pageText.data
        || anchorStrs.any (fun a => occursLit potential.data a.data) then
      some potential
    else none

example : find_next_numeric "see http://x/page-04/ here" [] "http://x/page-03"
    = some "http://x/page-04/" := by decide
example : find_next_numeric "see http://x/page-04/ here" [] "http://x/page/3"
    = some "http://x/page-04/" := by decide
example : find_next_numeric "go to http://x/gal-13/ now" [] "http://x/gal-12/"
    = some "http://x/gal-13/" := by decide
example : find_next_numeric "nothing here" [] "http://x/page-03" = none := by decide
example : find_next_numeric "anything" ["<a href=\"y\">z</a>"] "http://x/gal" = none := by
  decide

/-- `f"{n:03d}"`. -/
def pad3 (n : Nat) : String :=
  if n < 10 then "00" ++ Nat.repr n
  else if n < 100 then "0" ++ Nat.repr n
  else Nat.repr n

/-- The extension component of `os.path.splitext` (POSIX): the suffix from
the last `.` of the last path component, provided that component has a
non-dot character before that `.`; else the empty string. -/
def splitextExt (s : String) : String :=
  let base := afterLastSlash s.data
  let afterDot := base.reverse.takeWhile (fun c => decide (c ≠ '.'))
  if afterDot.length = base.length then ""
  else
    let stem := base.take (base.length - afterDot.length - 1)
    if stem.any (fun c => decide (c ≠ '.')) then ⟨'.' :: afterDot.reverse⟩ else ""

/-- `os.path.splitext(img_url)[1] or '.jpg'`. -/
def fileExt (url : String) : String :=
  let e := splitextExt url
  if e = "" then ".jpg" else e

/-- The temporary file path a successful worker writes for the 1-based
task index `idx`: `os.path.join(temp_dir, f"{idx:03d}{file_ext}")`. -/
def localFile (tempDir : String) (idx : Nat) (url : String) : String :=
  tempDir ++ "/" ++ pad3 idx ++ fileExt url

/-- `enumerate(urls, i)`: the submitted task list, pairing each URL with
its 1-based position when called with `i = 1`. -/
def enum1From (i : Nat) : List String → List (Nat × String)
  | [] => []
  | u :: us => (i, u) :: enum1From (i + 1) us

/-- One worker finishing task `t = (idx, url)`: on success
(`ok t.1 = true`) it writes its file path into slot `idx - 1` of the
pre-sized slot array, on failure it leaves the slot untouched.  The slot
writes happen under the shared lock, so a completion schedule is a
sequence of such atomic updates. -/
def dlStep (tempDir : String) (ok : Nat → Bool) (slots : List (Option String))
    (t : Nat × String) : List (Option String) :=
  if ok t.1 then slots.set (t.1 - 1) (some (localFile tempDir t.1 t.2)) else slots

/-- `download_images` from the source, with the thread pool's
nondeterminism made explicit: `order` is the sequence in which the eight
workers' completions commit their slot writes (an arbitrary permutation
of `enumerate(image_urls, 1)`), `ok` tells which downloads succeed.  The
pre-sized `[None] * len` slot array is filled and the `None` entries are
compacted out at the end. -/
def download_images (tempDir : String) (ok : Nat → Bool) (urls : List String)
    (order : List (Nat × String)) : List String :=
  ((order.foldl (dlStep tempDir ok) (List.replicate urls.length none)).filterMap id)

example :
    download_images "tmp" (fun i => decide (i ≠ 2)) ["a.jpg", "b.png", "c"]
      [(3, "c"), (1, "a.jpg"), (2, "b.png")]
    = ["tmp/001.jpg", "tmp/003.jpg"] := by decide

/-- The two kinds of raised Python exception the error-propagation model
distinguishes: `SystemExit` (raised by `sys.exit`) is a `BaseException`
that an `except Exception` clause does not catch; `ordinary` stands for
any `Exception` subclass. -/
inductive PyError where
  | systemExit
  | ordinary
  deriving DecidableEq

/-- `fetch_page` from the source: the page fetch either yields HTML, or —
on any error (non-2xx via `raise_for_status`, network/timeout/TLS) — the
handler prints and calls `sys.exit(1)`, raising `SystemExit`.  The network
outcome is the parameter: `some html` or `none` (failure). -/
def fetch_page (world : Option String) : Except PyError String :=
  match world with
  | some html => .ok html
  | none => .error .systemExit

/-- `ImageToPDFDownloader.run` for one job, reduced to the part the claim
is about: the initial `fetch_page` inside `try ... finally cleanup`.
Returns the job outcome and whether `cleanup` ran (the `finally` clause
runs it on both paths). -/
def run_job (world : Option String) : Except PyError Unit × Bool :=
  match fetch_page world with
  | .ok _ => (.ok (), true)
  | .error e => (.error e, true)

/-- The per-URL loop of `download_bulk_mode`: each job runs inside
`try ... except Exception`, which catches `ordinary` errors (counting a
failure and continuing) but not `SystemExit`, which aborts the whole
process.  Returns (successful, failed, escaped error if any). -/
def download_bulk_mode : List (Option String) → Nat × Nat × Option PyError
  | [] => (0, 0, none)
  | w :: ws =>
    match (run_job w).1 with
    | .ok _ =>
      let r := download_bulk_mode ws
      (r.1 + 1, r.2.1, r.2.2)
    | .error .ordinary =>
      let r := download_bulk_mode ws
      (r.1, r.2.1 + 1, r.2.2)
    | .error .systemExit => (0, 0, some .systemExit)

example : download_bulk_mode [none, some "html"] = (0, 0, some .systemExit) := by decide
example : download_bulk_mode [some "a", some "b"] = (2, 0, none) := by decide
example : (run_job none).2 = true := by decide

/-- A network on which every fetch fails; used to exercise the static
path, which never touches the network. -/
def gNone : String → Option (CrawlPage String String) := fun _ => none

/-- A paginated gallery of two pages `A → B` whose `extract_main_image`
yields the same URL on both pages. -/
def dupGraph : String → Option (CrawlPage String String) := fun u =>
  if u = "B" then some ⟨some "i.jpg", none⟩ else none

/-- The first page of `dupGraph`'s gallery: its markup contains the
`Next Image` pagination indicator, its main image is `i.jpg`, its next
link is `B`. -/
def dupDoc : Document where
  url := "A"
  rawHtml := "<div><a>Next Image</a></div>"
  divIds := []
  noscriptSrcs := []
  dataSrcs := []
  srcs := []
  pageData := ⟨some "i.jpg", some "B"⟩

/-- Modelled from the claim's wording only (not from the source): the URL
ends in `-<digits>`, optionally with a trailing slash. -/
def endsInDashDigits (s : String) : Bool :=
  let l := if s.data.getLast? = some '/' then s.data.dropLast else s.data
  let d := l.reverse.takeWhile Char.isDigit
  !d.isEmpty && decide ((l.take (l.length - d.length)).getLast? = some '-')

example : endsInDashDigits "http://x/page-03" = true := by decide
example : endsInDashDigits "http://x/page-03/" = true := by decide
example : endsInDashDigits "http://x/page/3" = false := by decide

/-! ### Helper lemmas about the sort -/

lemma keyLe_total (a b : Option Nat) : keyLe a b = true ∨ keyLe b a = true := by
  cases a <;> cases b <;> simp [keyLe] <;> exact Nat.le_total _ _

lemma keyLe_trans {a b c : Option Nat} (h1 : keyLe a b = true) (h2 : keyLe b c = true) :
    keyLe a c = true := by
  cases a <;> cases b <;> cases c <;> simp_all [keyLe] <;> omega

lemma keyLe_of_not (a b : Option Nat) (h : keyLe a b = false) : keyLe b a = true := by
  cases a <;> cases b <;> simp_all [keyLe] <;> omega

lemma keyLe_false_ne {a b : Option Nat} (h : keyLe a b = false) : a ≠ b := by
  cases a <;> cases b <;> simp_all [keyLe] <;> omega

lemma insertByKey_perm (key : α → Option Nat) (a : α) :
    ∀ l, (insertByKey key a l).Perm (a :: l)
  | [] => List.Perm.refl _
  | b :: l => by
    simp only [insertByKey]
    by_cases h : keyLe (key a) (key b) = true
    · rw [if_pos h]
    · rw [if_neg h]
      exact (List.Perm.cons b (insertByKey_perm key a l)).trans (List.Perm.swap a b l)

lemma sortByKey_perm (key : α → Option Nat) : ∀ l, (sortByKey key l).Perm l
  | [] => List.Perm.refl _
  | a :: l =>
    (insertByKey_perm key a (sortByKey key l)).trans (List.Perm.cons a (sortByKey_perm key l))

lemma insertByKey_pairwise (key : α → Option Nat) (a : α) (l : List α)
    (hl : l.Pairwise (fun x y => keyLe (key x) (key y) = true)) :
    (insertByKey key a l).Pairwise (fun x y => keyLe (key x) (key y) = true) := by
  induction l with
  | nil => simp [insertByKey]
  | cons b l ih =>
    rw [List.pairwise_cons] at hl
    simp only [insertByKey]
    by_cases h : keyLe (key a) (key b) = true
    · rw [if_pos h]
      refine List.Pairwise.cons ?_ (List.Pairwise.cons hl.1 hl.2)
      intro x hx
      rcases List.mem_cons.1 hx with rfl | hx
      · exact h
      · exact keyLe_trans h (hl.1 x hx)
    · rw [if_neg h]
      refine List.Pairwise.cons ?_ (ih hl.2)
      intro x hx
      have hx2 : x ∈ a :: l := (insertByKey_perm key a l).mem_iff.1 hx
      rcases List.mem_cons.1 hx2 with rfl | hx3
      · exact keyLe_of_not _ _ (by simpa using h)
      · exact hl.1 x hx3

lemma sortByKey_pairwise (key : α → Option Nat) :
    ∀ l, (sortByKey key l).Pairwise (fun x y => keyLe (key x) (key y) = true)
  | [] => List.Pairwise.nil
  | a :: l => insertByKey_pairwise key a _ (sortByKey_pairwise key l)

lemma filter_insertByKey (key : α → Option Nat) (k : Option Nat) (a : α) (l : List α) :
    (insertByKey key a l).filter (fun x => decide (key x = k))
      = if key a = k then a :: l.filter (fun x => decide (key x = k))
        else l.filter (fun x => decide (key x = k)) := by
  induction l with
  | nil => simp [insertByKey, List.filter_cons]
  | cons b l ih =>
    simp only [insertByKey]
    by_cases h : keyLe (key a) (key b) = true
    · rw [if_pos h]
      simp [List.filter_cons]
    · rw [if_neg h]
      have hne : key a ≠ key b := keyLe_false_ne (by simpa using h)
      by_cases ha : key a = k <;> by_cases hb : key b = k <;>
        simp_all [List.filter_cons, ih]

lemma sortByKey_filter (key : α → Option Nat) (k : Option Nat) :
    ∀ l, (sortByKey key l).filter (fun x => decide (key x = k))
      = l.filter (fun x => decide (key x = k))
  | [] => rfl
  | a :: l => by
    simp only [sortByKey]
    rw [filter_insertByKey, sortByKey_filter key k l, List.filter_cons]
    by_cases ha : key a = k <;> simp [ha]

/-! ### Helper lemmas about deduplication -/

lemma dedupSeen_sublist : ∀ (seen l : List String), (dedupSeen seen l).Sublist l
  | _, [] => List.Sublist.refl _
  | seen, u :: rest => by
    simp only [dedupSeen]
    by_cases h : u ∈ seen
    · rw [if_pos h]
      exact (dedupSeen_sublist seen rest).cons u
    · rw [if_neg h]
      exact (dedupSeen_sublist (u :: seen) rest).cons₂ u

lemma mem_dedupSeen : ∀ (seen l : List String) (x : String),
    x ∈ dedupSeen seen l ↔ (x ∈ l ∧ x ∉ seen)
  | seen, [], x => by simp [dedupSeen]
  | seen, u :: rest, x => by
    simp only [dedupSeen]
    by_cases h : u ∈ seen
    · rw [if_pos h, mem_dedupSeen seen rest x]
      constructor
      · exact fun hx => ⟨List.mem_cons_of_mem u hx.1, hx.2⟩
      · rintro ⟨hx, hns⟩
        rcases List.mem_cons.1 hx with rfl | hx
        · exact absurd h hns
        · exact ⟨hx, hns⟩
    · rw [if_neg h]
      simp only [List.mem_cons, mem_dedupSeen (u :: seen) rest x]
      constructor
      · rintro (rfl | ⟨hx, hns⟩)
        · exact ⟨Or.inl rfl, h⟩
        · exact ⟨Or.inr hx, fun hs => hns (Or.inr hs)⟩
      · rintro ⟨rfl | hx, hns⟩
        · exact Or.inl rfl
        · by_cases hxu : x = u
          · exact Or.inl hxu
          · exact Or.inr ⟨hx, fun hs => hs.elim hxu hns⟩

lemma dedupSeen_nodup : ∀ (seen l : List String), (dedupSeen seen l).Nodup
  | _, [] => List.nodup_nil
  | seen, u :: rest => by
    simp only [dedupSeen]
    by_cases h : u ∈ seen
    · rw [if_pos h]
      exact dedupSeen_nodup seen rest
    · rw [if_neg h]
      refine List.nodup_cons.2 ⟨fun hu => ?_, dedupSeen_nodup (u :: seen) rest⟩
      exact ((mem_dedupSeen (u :: seen) rest u).1 hu).2 (List.mem_cons_self u seen)

/-! ### Download-order lemmas -/

lemma set_get?_same {γ : Type} : ∀ (l : List γ) (i : Nat) (a : γ),
    i < l.length → (l.set i a).get? i = some a
  | [], i, _, h => by simp at h
  | _ :: _, 0, _, _ => rfl
  | b :: l, Nat.succ i, a, h =>
    set_get?_same l i a (by simpa using h)

lemma set_get?_ne {γ : Type} : ∀ (l : List γ) (i j : Nat) (a : γ),
    i ≠ j → (l.set i a).get? j = l.get? j
  | [], _, _, _, _ => rfl
  | _ :: _, 0, 0, _, h => absurd rfl h
  | _ :: _, 0, Nat.succ _, _, _ => rfl
  | _ :: _, Nat.succ _, 0, _, _ => rfl
  | _ :: l, Nat.succ i, Nat.succ j, a, h =>
    set_get?_ne l i j a (fun e => h (by rw [e]))

lemma dlStep_length (td : String) (ok : Nat → Bool) (slots : List (Option String))
    (t : Nat × String) : (dlStep td ok slots t).length = slots.length := by
  simp only [dlStep]
  split <;> simp

lemma dl_foldl_length (td : String) (ok : Nat → Bool) :
    ∀ (l : List (Nat × String)) (slots : List (Option String)),
      (l.foldl (dlStep td ok) slots).length = slots.length
  | [], _ => rfl
  | t :: l, slots => by
    rw [List.foldl_cons, dl_foldl_length td ok l, dlStep_length]

lemma enum1From_length : ∀ (i : Nat) (us : List String),
    (enum1From i us).length = us.length
  | _, [] => rfl
  | i, _ :: us => by simp [enum1From, enum1From_length (i + 1) us]

lemma enum1From_get? : ∀ (us : List String) (i j : Nat),
    (enum1From i us).get? j = (us.get? j).map (fun u => (i + j, u))
  | [], i, j => by simp [enum1From]
  | u :: us, i, 0 => by simp [enum1From]
  | u :: us, i, Nat.succ j => by
    simp only [enum1From, List.get?]
    rw [enum1From_get? us (i + 1) j, Nat.add_assoc, Nat.add_comm 1 j]

lemma mem_enum1From : ∀ {t : Nat × String} {i : Nat} {us : List String},
    t ∈ enum1From i us → ∃ k, us.get? k = some t.2 ∧ t.1 = i + k := by
  intro t i us
  induction us generalizing i with
  | nil => intro h; simp [enum1From] at h
  | cons u us ih =>
    intro h
    rcases List.mem_cons.1 h with rfl | h2
    · exact ⟨0, rfl, rfl⟩
    · rcases ih h2 with ⟨k, hk, hk1⟩
      exact ⟨k + 1, hk, by omega⟩

lemma enum1From_mem : ∀ {us : List String} {i k : Nat} {u : String},
    us.get? k = some u → (i + k, u) ∈ enum1From i us := by
  intro us
  induction us with
  | nil => intro i k u h; simp at h
  | cons v us ih =>
    intro i k u h
    cases k with
    | zero =>
      simp only [List.get?, Option.some.injEq] at h
      subst h
      exact List.mem_cons_self _ _
    | succ k =>
      have h2 := ih (i := i + 1) (k := k) (u := u) h
      have he : i + 1 + k = i + (k + 1) := by omega
      rw [he] at h2
      exact List.mem_cons_of_mem _ h2

lemma replicate_get?_lt {γ : Type} (a : γ) : ∀ (n j : Nat), j < n →
    (List.replicate n a).get? j = some a
  | 0, _, h => by simp at h
  | Nat.succ n, 0, _ => rfl
  | Nat.succ n, Nat.succ j, h => replicate_get?_lt a n j (by omega)

/-- After any completion schedule drawn from the submitted task list, slot
`j` holds the file of task `j+1` exactly when that task is scheduled and
succeeds; other slots are untouched. -/
lemma dl_foldl_get? (td : String) (ok : Nat → Bool) (urls : List String) :
    ∀ (l : List (Nat × String)) (slots : List (Option String)) (j : Nat),
      (∀ t ∈ l, t ∈ enum1From 1 urls) → slots.length = urls.length →
      ∀ (u : String), urls.get? j = some u →
      (l.foldl (dlStep td ok) slots).get? j
        = if (j + 1, u) ∈ l ∧ ok (j + 1) = true
          then some (some (localFile td (j + 1) u))
          else slots.get? j := by
  intro l
  induction l with
  | nil =>
    intro slots j _ _ u _
    simp
  | cons t l ih =>
    intro slots j hsub hlen u hu
    have hj : j < urls.length := by
      rcases List.get?_eq_some.1 hu with ⟨h, _⟩
      exact h
    rw [List.foldl_cons,
      ih (dlStep td ok slots t) j (fun s hs => hsub s (List.mem_cons_of_mem t hs))
        (by rw [dlStep_length]; exact hlen) u hu]
    by_cases hmem : (j + 1, u) ∈ l ∧ ok (j + 1) = true
    · rw [if_pos hmem, if_pos ⟨List.mem_cons_of_mem t hmem.1, hmem.2⟩]
    · rw [if_neg hmem]
      by_cases ht : t = (j + 1, u)
      · subst ht
        by_cases hok : ok (j + 1) = true
        · rw [if_pos ⟨List.mem_cons_self _ _, hok⟩]
          simp only [dlStep]
          rw [if_pos hok]
          have he : j + 1 - 1 = j := by omega
          rw [he]
          exact set_get?_same slots j _ (by omega)
        · rw [if_neg (fun hcon => hok hcon.2)]
          simp only [dlStep]
          rw [if_neg hok]
      · have houter : ¬ ((j + 1, u) ∈ t :: l ∧ ok (j + 1) = true) := by
          intro hcon
          rcases List.mem_cons.1 hcon.1 with he | hl2
          · exact ht he.symm
          · exact hmem ⟨hl2, hcon.2⟩
        rw [if_neg houter]
        simp only [dlStep]
        by_cases hok : ok t.1 = true
        · rw [if_pos hok]
          rcases mem_enum1From (hsub t (List.mem_cons_self t l)) with ⟨k, hk, hk1⟩
          have hne : t.1 - 1 ≠ j := by
            intro he
            apply ht
            have hkj : k = j := by omega
            subst hkj
            rw [hu] at hk
            obtain ⟨t1, t2⟩ := t
            simp only [Option.some.injEq] at hk
            simp only at hk1
            rw [Prod.mk.injEq]
            exact ⟨by omega, hk.symm⟩
          exact set_get?_ne slots (t.1 - 1) j _ hne
        · rw [if_neg hok]

/-- The slot array after all workers finish equals the canonical array:
slot `j` holds task `j+1`'s file iff that download succeeded. -/
lemma dl_foldl_canon (td : String) (ok : Nat → Bool) (urls : List String)
    (order : List (Nat × String)) (hperm : order.Perm (enum1From 1 urls)) :
    order.foldl (dlStep td ok) (List.replicate urls.length none)
      = (enum1From 1 urls).map
          (fun t => if ok t.1 = true then some (localFile td t.1 t.2) else none) := by
  apply List.ext
  intro j
  by_cases hj : j < urls.length
  · obtain ⟨u, hu⟩ : ∃ u, urls.get? j = some u := by
      cases hg : urls.get? j with
      | none => exact absurd (List.get?_eq_none.1 hg) (by omega)
      | some u => exact ⟨u, rfl⟩
    rw [dl_foldl_get? td ok urls order _ j (fun t ht => hperm.mem_iff.1 ht)
      (by simp) u hu]
    have hmem : (j + 1, u) ∈ order := by
      apply hperm.mem_iff.2
      have h2 := enum1From_mem (i := 1) hu
      rwa [Nat.add_comm] at h2
    rw [List.get?_map, enum1From_get? urls 1 j, hu]
    simp only [Option.map_some']
    rw [Nat.add_comm 1 j]
    by_cases hok : ok (j + 1) = true
    · rw [if_pos ⟨hmem, hok⟩, if_pos hok]
    · rw [if_neg (fun hcon => hok hcon.2), if_neg hok,
        replicate_get?_lt _ _ _ hj]
  · rw [List.get?_eq_none.2 (by rw [dl_foldl_length]; simp; omega),
      List.get?_eq_none.2 (by simp [enum1From_length]; omega)]

lemma filterMap_id_map_if {γ δ : Type} (p : γ → Bool) (f : γ → δ) :
    ∀ l : List γ,
      (l.map (fun t => if p t = true then some (f t) else none)).filterMap id
        = (l.filter (fun t => p t)).map f
  | [] => rfl
  | a :: l => by
    by_cases hp : p a = true <;>
      simp [List.filterMap_cons, List.filter_cons, hp, filterMap_id_map_if p f l]

/-! ### Substring lemmas used by the idempotence analysis -/

lemma stripLit_append {p l t r : List Char} (h : stripLit p l = some r) :
    stripLit p (l ++ t) = some (r ++ t) := by
  induction p generalizing l with
  | nil =>
    simp only [stripLit, Option.some.injEq] at h
    subst h
    rfl
  | cons x ps ih =>
    cases l with
    | nil => simp [stripLit] at h
    | cons c cs =>
      simp only [stripLit, List.cons_append] at h ⊢
      by_cases hx : x = c
      · rw [if_pos hx] at h ⊢
        exact ih h
      · rw [if_neg hx] at h
        exact absurd h (by simp)

lemma stripLit_split {p q l r : List Char} (h : stripLit (p ++ q) l = some r) :
    ∃ m, stripLit p l = some m ∧ stripLit q m = some r := by
  induction p generalizing l with
  | nil => exact ⟨l, rfl, by simpa using h⟩
  | cons x ps ih =>
    cases l with
    | nil => simp [stripLit] at h
    | cons c cs =>
      simp only [List.cons_append, stripLit] at h ⊢
      by_cases hx : x = c
      · rw [if_pos hx] at h ⊢
        exact ih h
      · rw [if_neg hx] at h
        exact absurd h (by simp)

lemma occursLit_of_head {pat l : List Char} (h : (stripLit pat l).isSome = true) :
    occursLit pat l = true := by
  cases l with
  | nil => simpa [occursLit] using h
  | cons c cs => simp [occursLit, h]

lemma occursLit_append_left {pat l t : List Char} (h : occursLit pat l = true) :
    occursLit pat (l ++ t) = true := by
  induction l with
  | nil =>
    cases pat with
    | nil => cases t <;> simp [occursLit, stripLit]
    | cons x ps => simp [occursLit, stripLit] at h
  | cons c cs ih =>
    simp only [occursLit, Bool.or_eq_true] at h
    rcases h with h | h
    · rcases Option.isSome_iff_exists.1 h with ⟨r, hr⟩
      have h2 := stripLit_append (t := t) hr
      rw [List.cons_append] at h2
      simp only [List.cons_append, occursLit, Bool.or_eq_true]
      exact Or.inl (by simp [h2])
    · simp only [List.cons_append, occursLit, Bool.or_eq_true]
      exact Or.inr (ih h)

lemma occursLit_takeWhile_false {pat l : List Char} {q : Char → Bool}
    (h : occursLit pat l = false) : occursLit pat (l.takeWhile q) = false := by
  cases hc : occursLit pat (l.takeWhile q) with
  | false => rfl
  | true =>
    have h2 := occursLit_append_left (t := l.dropWhile q) hc
    rw [List.takeWhile_append_dropWhile] at h2
    rw [h2] at h
    exact absurd h (by simp)

lemma styMatch_none {l : List Char} (h : occursLit "/styles/".data l = false) :
    styMatch l = none := by
  cases l with
  | nil => rfl
  | cons c cs =>
    simp only [occursLit, Bool.or_eq_false_iff] at h
    have hnone : stripLit "/styles/".data (c :: cs) = none := by
      cases hs : stripLit "/styles/".data (c :: cs) with
      | none => rfl
      | some r =>
        rw [hs] at h
        exact absurd h.1 (by simp)
    simp [styMatch, hnone]

lemma stripStylesF_id (n : Nat) :
    ∀ l, occursLit "/styles/".data l = false → stripStylesF n l = l := by
  induction n with
  | zero => intro l _; cases l <;> rfl
  | succ m ih =>
    intro l h
    cases l with
    | nil => rfl
    | cons c cs =>
      have hmatch : styMatch (c :: cs) = none := styMatch_none h
      have htail : occursLit "/styles/".data cs = false := by
        simp only [occursLit, Bool.or_eq_false_iff] at h
        exact h.2
      simp [stripStylesF, hmatch, ih cs htail]

lemma stripStyles_id {l : List Char} (h : occursLit "/styles/".data l = false) :
    stripStyles l = l := stripStylesF_id l.length l h

lemma findItok_none : ∀ (l : List Char),
    occursLit "itok".data l = false → findItok l = none := by
  intro l
  induction l with
  | nil => intro _; rfl
  | cons c cs ih =>
    intro h
    simp only [occursLit, Bool.or_eq_false_iff] at h
    by_cases hc : c = '?' ∨ c = '&'
    · have hno : stripLit "itok=".data cs = none := by
        cases hs : stripLit "itok=".data cs with
        | none => rfl
        | some rest =>
          have heq : ("itok=".data : List Char) = "itok".data ++ "=".data := by decide
          rw [heq] at hs
          rcases stripLit_split hs with ⟨m, hm, _⟩
          have ht : occursLit "itok".data cs = true := occursLit_of_head (by simp [hm])
          rw [ht] at h
          exact absurd h.2 (by simp)
      simp [findItok, hc, hno, ih h.2]
    · simp [findItok, hc, ih h.2]

lemma takeWhile_no_qmark (l : List Char) :
    ((l.takeWhile (fun c => decide (c ≠ '?'))).any (fun c => decide (c = '?'))) = false := by
  rw [List.any_eq_false]
  intro x hx
  have hx2 := List.mem_takeWhile_imp hx
  simp only [decide_eq_true_eq] at hx2
  simp [hx2]

/-- Idempotence of `clean_image_url` on URLs free of the `/styles/` and
`itok` trigger substrings. -/
lemma clean_idem_aux (u : String)
    (h1 : occursLit "/styles/".data u.data = false)
    (h2 : occursLit "itok".data u.data = false) :
    clean_image_url (clean_image_url u) = clean_image_url u := by
  have hd : stripStyles u.data = u.data := stripStyles_id h1
  by_cases hq : u.data.any (fun c => decide (c = '?')) = true
  · have e1 : clean_image_url u
        = ⟨u.data.takeWhile (fun c => decide (c ≠ '?'))⟩ := by
      simp only [clean_image_url, hd, hq, if_true, findItok_none _ h2]
    rw [e1]
    have hsty : occursLit "/styles/".data
        (u.data.takeWhile (fun c => decide (c ≠ '?'))) = false :=
      occursLit_takeWhile_false h1
    have hq2 := takeWhile_no_qmark u.data
    simp only [clean_image_url, stripStyles_id hsty, hq2]
    simp
  · have hq2 : u.data.any (fun c => decide (c = '?')) = false := by
      cases hqq : u.data.any (fun c => decide (c = '?')) with
      | false => rfl
      | true => exact absurd hqq hq
    have e1 : clean_image_url u = u := by
      simp only [clean_image_url, hd, hq2]
      simp
    rw [e1, e1]

/-! ### Crawl-loop counter bound -/

lemma crawlLoop_cnt_le [DecidableEq α] (g : α → Option (CrawlPage α β)) (start : α)
    (initial : CrawlPage α β) :
    ∀ (fuel : Nat) (visited : List α) (current : α) (acc : List β) (cnt : Nat),
      (crawlLoop g start initial fuel visited current acc cnt).2 ≤ cnt + fuel := by
  intro fuel
  induction fuel with
  | zero => intro visited current acc cnt; simp [crawlLoop]
  | succ n ih =>
    intro visited current acc cnt
    simp only [crawlLoop]
    by_cases h : current ∈ visited
    · rw [if_pos h]; omega
    · rw [if_neg h]
      cases hf : (if current = start then some initial else g current) with
      | none => simp
      | some page =>
        simp only []
        cases hn : page.next with
        | none => simp
        | some nxt =>
          simp only []
          by_cases hv : nxt ∈ current :: visited
          · rw [if_pos hv]; simp
          · rw [if_neg hv]
            calc (crawlLoop g start initial n (current :: visited) nxt
                    (acc ++ page.image.toList) (cnt + 1)).2
                ≤ (cnt + 1) + n := ih _ _ _ _
              _ = cnt + (n + 1) := by omega

/-! ### Static-pipeline membership lemmas -/

lemma mem_candidateList {x : String} {srcs : List String}
    (h : x ∈ candidateList srcs) : is_image_url x = true := by
  rcases List.mem_filterMap.1 h with ⟨s, _, hs⟩
  split at hs
  · rename_i hc
    rw [Option.some.injEq] at hs
    rw [← hs]
    exact hc.2
  · exact absurd hs (by simp)

lemma mem_pipeline {cands : List String} {v : String}
    (h : v ∈ smart_sort_images (removeDuplicates (cands.map clean_image_url))) :
    ∃ r ∈ cands, v = clean_image_url r := by
  have h1 : v ∈ removeDuplicates (cands.map clean_image_url) :=
    (sortByKey_perm extract_number_from_filename _).mem_iff.1 h
  have h2 : v ∈ cands.map clean_image_url := ((mem_dedupSeen [] _ v).1 h1).1
  rcases List.mem_map.1 h2 with ⟨r, hr, he⟩
  exact ⟨r, hr, he.symm⟩

lemma extract_static_nodup (doc : Document) : (extract_images_static doc).Nodup := by
  simp only [extract_images_static, smart_sort_images]
  exact ((sortByKey_perm extract_number_from_filename _).nodup_iff).2
    (dedupSeen_nodup [] _)

/-! ### Claim theorems -/

/-- Claim C1: for every list of image URLs and every completion order of
the concurrent workers (any permutation of the submitted 1-indexed task
list), `download_images` returns exactly the successful tasks' file paths
in the input order — each success lands in its original slot, failures are
compacted out, relative order is preserved. -/
theorem claim1_download_order (td : String) (ok : Nat → Bool) (urls : List String)
    (order : List (Nat × String)) (hperm : order.Perm (enum1From 1 urls)) :
    download_images td ok urls order
      = ((enum1From 1 urls).filter (fun t => ok t.1)).map
          (fun t => localFile td t.1 t.2) := by
  simp only [download_images]
  rw [dl_foldl_canon td ok urls order hperm]
  exact filterMap_id_map_if (fun t => ok t.1) (fun t => localFile td t.1 t.2)
    (enum1From 1 urls)

/-- Witness for C1: a concrete three-URL list with the middle download
failing and a shuffled completion order. -/
theorem claim1_download_order_witness :
    download_images "tmp" (fun i => decide (i ≠ 2)) ["a.jpg", "b.png", "c"]
        [(3, "c"), (1, "a.jpg"), (2, "b.png")]
      = ((enum1From 1 ["a.jpg", "b.png", "c"]).filter
            (fun t => (fun i => decide (i ≠ 2)) t.1)).map
          (fun t => localFile "tmp" t.1 t.2) :=
  claim1_download_order "tmp" (fun i => decide (i ≠ 2)) ["a.jpg", "b.png", "c"]
    [(3, "c"), (1, "a.jpg"), (2, "b.png")] (by decide)

set_option maxRecDepth 100000 in
/-- Claim C2: the pagination crawler never reprocesses a visited URL — on
the cycle A → B → A it stops at the revisit keeping the two images
collected so far — an always-has-next chain stops after exactly 200
processed pages, and on every page graph the number of processed pages is
at most 200. -/
theorem claim2_pagination_termination :
    extract_paginated_images cycleGraph "A" ⟨some "imgA", some "B"⟩ = (["imgA", "imgB"], 2)
    ∧ (extract_paginated_images chainGraph 0 ⟨some 0, some 1⟩).2 = 200
    ∧ ∀ (g : String → Option (CrawlPage String String)) (start : String)
        (initial : CrawlPage String String),
        (extract_paginated_images g start initial).2 ≤ 200 :=
  ⟨by decide, by decide, fun g start initial => by
    simpa [extract_paginated_images] using
      crawlLoop_cnt_le g start initial 200 [] start [] 0⟩

/-- Claim C3: the static extraction chain is first-non-empty-wins — when
the noscript scan yields candidates the `data-src` and `src` lists are
never consulted, and when noscript yields nothing but `data-src` does the
`src` list is never consulted; on the spec's scenario document (noscript
`full/1.jpg` alongside `data-src` `thumb/1.jpg`) extraction returns
`full/1.jpg` only, for every network. -/
theorem claim3_strategy_chain :
    (∀ g, extract_images demoDoc g = ["full/1.jpg"])
    ∧ (∀ (url raw : String) (div ns ds ss ds2 ss2 : List String)
        (pd pd2 : CrawlPage String String)
        (g g2 : String → Option (CrawlPage String String)),
        is_paginated_gallery ⟨url, raw, div, ns, ds, ss, pd⟩ = false →
        candidateList ns ≠ [] →
        extract_images ⟨url, raw, div, ns, ds, ss, pd⟩ g
          = extract_images ⟨url, raw, div, ns, ds2, ss2, pd2⟩ g2)
    ∧ (∀ (url raw : String) (div ns ds ss ss2 : List String)
        (pd pd2 : CrawlPage String String)
        (g g2 : String → Option (CrawlPage String String)),
        is_paginated_gallery ⟨url, raw, div, ns, ds, ss, pd⟩ = false →
        candidateList ns = [] → candidateList ds ≠ [] →
        extract_images ⟨url, raw, div, ns, ds, ss, pd⟩ g
          = extract_images ⟨url, raw, div, ns, ds, ss2, pd2⟩ g2) := by
  refine ⟨?_, ?_, ?_⟩
  · intro g
    simp only [extract_images]
    rw [if_neg (by decide : ¬ is_paginated_gallery demoDoc = true)]
    decide
  · intro url raw div ns ds ss ds2 ss2 pd pd2 g g2 hpag hns
    simp only [extract_images]
    rw [if_neg (by simp [hpag]), if_neg (by simp [show
      is_paginated_gallery ⟨url, raw, div, ns, ds2, ss2, pd2⟩ = false from hpag])]
    simp only [extract_images_static]
    rw [if_pos hns, if_pos hns]
  · intro url raw div ns ds ss ss2 pd pd2 g g2 hpag hns hds
    simp only [extract_images]
    rw [if_neg (by simp [hpag]), if_neg (by simp [show
      is_paginated_gallery ⟨url, raw, div, ns, ds, ss2, pd2⟩ = false from hpag])]
    simp only [extract_images_static]
    rw [if_pos hds, if_pos hds]

/-- Witness for C3: the frame properties at concrete documents — dropping
the `data-src` and `src` lists does not change the output once the
noscript scan has candidates, and dropping the `src` list does not change
the output once the `data-src` scan has candidates. -/
theorem claim3_strategy_chain_witness :
    (extract_images ⟨"u", "x", [], ["full/1.jpg"], ["thumb/1.jpg"], ["full/1.jpg"],
        ⟨none, none⟩⟩ gNone
      = extract_images ⟨"u", "x", [], ["full/1.jpg"], [], [], ⟨none, none⟩⟩ gNone)
    ∧ (extract_images ⟨"u", "x", [], [], ["thumb/1.jpg"], ["s.png"],
        ⟨none, none⟩⟩ gNone
      = extract_images ⟨"u", "x", [], [], ["thumb/1.jpg"], [], ⟨none, none⟩⟩ gNone) :=
  ⟨claim3_strategy_chain.2.1 "u" "x" [] ["full/1.jpg"] ["thumb/1.jpg"] ["full/1.jpg"]
      [] [] ⟨none, none⟩ ⟨none, none⟩ gNone gNone (by decide) (by decide),
    claim3_strategy_chain.2.2 "u" "x" [] [] ["thumb/1.jpg"] ["s.png"] []
      ⟨none, none⟩ ⟨none, none⟩ gNone gNone (by decide) (by decide) (by decide)⟩

/-- Counterexample to C4 as stated: the substitution is a single
non-overlapping pass, so an occurrence of `/styles/<variant>/public/`
survives in the output, and the itok regex searches the whole URL, so a
query string without an itok parameter is not dropped. -/
theorem claim4_counterexample :
    occursLit "/styles/a/public/".data
        (clean_image_url "https://x.test/styles/X/public/styles/a/public/b.jpg").data = true
    ∧ clean_image_url "https://x.test/a&itok=B.jpg?w=1"
        ≠ "https://x.test/a&itok=B.jpg" :=
  ⟨by decide, by decide⟩

/-- Claim C4 (amended): clean-url collapses the left-to-right
non-overlapping occurrences of `/styles/<variant>/public/` in one pass —
an overlapping occurrence, or one formed by a collapse, survives — and on
a URL containing `?` it keeps the part before the first `?` plus
`?itok=<v>` where `<v>` is the first nonempty `&`-free run after an
`itok=` preceded by `?` or `&` anywhere in the URL, else just that part;
the two spec scenarios hold. -/
theorem claim4_amended :
    clean_image_url "https://x.test/img.jpg?itok=ABC123&w=200"
        = "https://x.test/img.jpg?itok=ABC123"
    ∧ clean_image_url "https://x.test/styles/thumbnail/public/photo.png?w=50"
        = "https://x.test/photo.png"
    ∧ clean_image_url "https://x.test/styles/X/public/styles/a/public/b.jpg"
        = "https://x.test/styles/a/public/b.jpg"
    ∧ clean_image_url "https://x.test/a&itok=B.jpg?w=1"
        = "https://x.test/a&itok=B.jpg?itok=B.jpg?w=1" :=
  ⟨by decide, by decide, by decide, by decide⟩

/-- Claim C5: the numeric key tries leading-digits-then-separator, then
separator-digits-dot, then any digit run, else the infinite sentinel; the
smart sort is ascending (pairwise `keyLe`) and stable (the subsequence at
each key value is preserved); the spec's three-file list sorts to
01, 02, 03 and a digitless filename sorts after numbered ones. -/
theorem claim5_numeric_sort :
    extract_number_from_filename "a/12_34.jpg" = some 12
    ∧ extract_number_from_filename "a/ab12cd_34.jpg" = some 34
    ∧ extract_number_from_filename "a/abc12def.jpg" = some 12
    ∧ extract_number_from_filename "a/cover.jpg" = none
    ∧ smart_sort_images ["img_01.jpg", "img_03.jpg", "img_02.jpg"]
        = ["img_01.jpg", "img_02.jpg", "img_03.jpg"]
    ∧ smart_sort_images ["cover.jpg", "img_02.jpg"] = ["img_02.jpg", "cover.jpg"]
    ∧ (∀ l : List String, (smart_sort_images l).Pairwise
        (fun a b => keyLe (extract_number_from_filename a)
          (extract_number_from_filename b) = true))
    ∧ ∀ (l : List String) (k : Option Nat),
        (smart_sort_images l).filter
            (fun u => decide (extract_number_from_filename u = k))
          = l.filter (fun u => decide (extract_number_from_filename u = k)) :=
  ⟨by decide, by decide, by decide, by decide, by decide, by decide,
    fun l => sortByKey_pairwise extract_number_from_filename l,
    fun l k => sortByKey_filter extract_number_from_filename k l⟩

/-- Counterexample to C6 as stated: URL cleaning is not idempotent — a
collapse can expose a new `/styles/<variant>/public/` occurrence, and the
itok rewrite can grow the URL on every application. -/
theorem claim6_counterexample :
    clean_image_url
        (clean_image_url "https://x.test/styles/X/public/styles/a/public/b.jpg")
      ≠ clean_image_url "https://x.test/styles/X/public/styles/a/public/b.jpg"
    ∧ clean_image_url (clean_image_url "https://x.test/a&itok=B.jpg?w=1")
      ≠ clean_image_url "https://x.test/a&itok=B.jpg?w=1" :=
  ⟨by decide, by decide⟩

/-- Claim C6 (amended): URL cleaning is idempotent on every URL containing
neither the substring `/styles/` nor the substring `itok` (in general it
is not). -/
theorem claim6_amended (u : String)
    (h1 : occursLit "/styles/".data u.data = false)
    (h2 : occursLit "itok".data u.data = false) :
    clean_image_url (clean_image_url u) = clean_image_url u :=
  clean_idem_aux u h1 h2

/-- Witness for C6 (amended) at a trigger-free URL with a query string. -/
theorem claim6_amended_witness :
    occursLit "/styles/".data "https://x.test/img.jpg?w=5".data = false
    ∧ occursLit "itok".data "https://x.test/img.jpg?w=5".data = false
    ∧ clean_image_url (clean_image_url "https://x.test/img.jpg?w=5")
        = clean_image_url "https://x.test/img.jpg?w=5" :=
  ⟨by decide, by decide, claim6_amended "https://x.test/img.jpg?w=5" (by decide) (by decide)⟩

/-- Counterexample to C7 as stated: the heuristic also fires on a URL
ending in `/<digits>` (separator `/`, not only `-`), since the source
regex accepts either separator. -/
theorem claim7_counterexample :
    endsInDashDigits "http://x/page/3" = false
    ∧ find_next_numeric "see http://x/page-04/ here" [] "http://x/page/3"
        = some "http://x/page-04/" :=
  ⟨by decide, by decide⟩

/-- Claim C7 (amended): the numeric-increment heuristic fires when the
current URL ends in `-<digits>` or `/<digits>` (optional trailing slash);
the candidate is the prefix joined with `-` to the incremented number,
zero-padded to two digits when the current value is below 10, plus a
trailing `/`; it is returned only when it appears verbatim in the page
text or in some anchor's markup, and a URL with no digit tail yields
nothing. -/
theorem claim7_amended :
    find_next_numeric "see http://x/page-04/ here" [] "http://x/page-03"
        = some "http://x/page-04/"
    ∧ find_next_numeric "go to http://x/gal-13/ now" [] "http://x/gal-12/"
        = some "http://x/gal-13/"
    ∧ find_next_numeric "start http://x/page-04/ end" [] "http://x/page/3"
        = some "http://x/page-04/"
    ∧ find_next_numeric "irrelevant" ["<a href=\"http://x/gal-05/\">5</a>"] "http://x/gal-04"
        = some "http://x/gal-05/"
    ∧ find_next_numeric "nothing here" [] "http://x/page-03" = none
    ∧ ∀ (text : String) (anchors : List String),
        find_next_numeric text anchors "http://x/gal" = none :=
  ⟨by decide, by decide, by decide, by decide, by decide, fun _ _ => rfl⟩

/-- Counterexample to C8 as stated: the paginated crawl does not
deduplicate — a two-page gallery whose pages share one image URL yields
that URL twice. -/
theorem claim8_counterexample :
    extract_images dupDoc dupGraph = ["i.jpg", "i.jpg"]
    ∧ ¬ (extract_images dupDoc dupGraph).Nodup :=
  ⟨by decide, by decide⟩

/-- Claim C8 (amended): the static strategy chain's output never contains
a duplicate URL; its deduplication keeps the first occurrence of each URL
and preserves relative order (the output is a duplicate-free sublist with
the same members); the paginated crawl performs no deduplication. -/
theorem claim8_amended :
    (∀ (doc : Document) (g : String → Option (CrawlPage String String)),
        is_paginated_gallery doc = false → (extract_images doc g).Nodup)
    ∧ (∀ l : List String, (removeDuplicates l).Nodup
        ∧ (removeDuplicates l).Sublist l
        ∧ ∀ x, x ∈ removeDuplicates l ↔ x ∈ l)
    ∧ removeDuplicates ["b", "a", "b", "c", "a"] = ["b", "a", "c"] := by
  refine ⟨?_, ?_, by decide⟩
  · intro doc g hpag
    simp only [extract_images]
    rw [if_neg (by simp [hpag])]
    exact extract_static_nodup doc
  · intro l
    refine ⟨dedupSeen_nodup [] l, dedupSeen_sublist [] l, fun x => ?_⟩
    simp only [removeDuplicates]
    rw [mem_dedupSeen]
    simp

/-- Witness for C8 (amended): a static document whose `src` list repeats a
URL still extracts a duplicate-free list. -/
theorem claim8_amended_witness :
    (extract_images ⟨"u8", "y", [], [], [], ["p1.jpg", "p1.jpg", "p2.jpg"],
        ⟨none, none⟩⟩ gNone).Nodup :=
  claim8_amended.1 ⟨"u8", "y", [], [], [], ["p1.jpg", "p1.jpg", "p2.jpg"],
    ⟨none, none⟩⟩ gNone (by decide)

/-- Claim C9: the code at the failing input — an initial page-fetch
failure raises `SystemExit` (via `sys.exit(1)`) after the job's `finally`
cleanup has run, and because `except Exception` does not catch
`SystemExit`, a two-URL bulk run aborts with zero URLs processed instead
of continuing with the second URL. -/
theorem claim9_bulk_abort :
    fetch_page none = Except.error PyError.systemExit
    ∧ (run_job none).2 = true
    ∧ download_bulk_mode [none, some "page"] = (0, 0, some PyError.systemExit) :=
  ⟨rfl, rfl, by decide⟩

/-- Claim C10: `is_image_url` accepts exactly the URLs whose lower-cased
full text ends in one of the six extensions, so a candidate with a
trailing query string is rejected before cleaning, and every URL in a
static extraction output is the cleaned form of a raw candidate that
passed the filter. -/
theorem claim10_image_filter :
    is_image_url "photo.jpg?itok=ABC" = false
    ∧ is_image_url "PHOTO.JPG" = true
    ∧ extract_images_static ⟨"u", "z", [], [], [], ["photo.jpg?itok=ABC", "b.png"],
        ⟨none, none⟩⟩ = ["b.png"]
    ∧ ∀ (doc : Document) (g : String → Option (CrawlPage String String)),
        is_paginated_gallery doc = false →
        ∀ v ∈ extract_images doc g,
          ∃ r, is_image_url r = true ∧ v = clean_image_url r := by
  refine ⟨by decide, by decide, by decide, ?_⟩
  intro doc g hpag v hv
  simp only [extract_images] at hv
  rw [if_neg (by simp [hpag])] at hv
  simp only [extract_images_static] at hv
  rcases mem_pipeline hv with ⟨r, hr, he⟩
  refine ⟨r, ?_, he⟩
  split at hr
  · exact mem_candidateList hr
  · split at hr
    · exact mem_candidateList hr
    · exact mem_candidateList hr

/-- Witness for C10 at the scenario document: the extracted URL is the
cleaned form of a filter-passing raw candidate. -/
theorem claim10_image_filter_witness :
    ∃ r, is_image_url r = true ∧ "full/1.jpg" = clean_image_url r :=
  claim10_image_filter.2.2.2 demoDoc gNone (by decide) "full/1.jpg" (by decide)

end ImagePdf
